import Mathlib

/-!
# Verification of the mailstrom outbound-email delivery engine

A shallow embedding of the core of the `mailstrom` crate (the delivery
worker in `src/worker/mod.rs`, the task queue in `src/worker/task.rs`,
MX resolution in `src/worker/mx.rs`, SMTP result classification in
`src/worker/smtp.rs`, message preparation in `src/prepared_email.rs`,
and the reference storage in `src/storage/memory_storage.rs`),
together with theorems settling the specification's claims about it.

Modelling conventions:
* Rust `u8`/`u16`/`u64`/`usize` values are modelled as `Nat`.  Overflow is
  represented explicitly where it matters: the deferred-attempt bump
  `attempts + 1` in `deliver_to_one_server` is taken `% 256`, and the
  unchecked `attempts_remaining -= 1` in `send_email` is modelled as a
  checked subtraction returning `none` on underflow (a debug-build panic
  in Rust).
* `std::time::Instant` is modelled as a `Nat` tick count; only ordering
  and addition of durations are used by the code.
* Effectful collaborators (the DNS resolver and the SMTP client) are
  modelled as explicit oracle functions passed to the worker functions.
-/

namespace Mailstrom

/-- `DeliveryResult` from `src/delivery_result.rs`: the result (so far) of
sending an email to a particular recipient.  The `Deferred` counter is a
Rust `u8`. -/
inductive DeliveryResult where
  | Queued : DeliveryResult
  | Deferred (attempts : Nat) (msg : String) : DeliveryResult
  | Delivered (response : String) : DeliveryResult
  | Failed (reason : String) : DeliveryResult
deriving DecidableEq, Repr

/-- `DeliveryResult::completed` from `src/delivery_result.rs`: everything
except `Queued` and `Deferred` is completed. -/
def DeliveryResult.completed : DeliveryResult → Bool
  | .Queued => false
  | .Deferred _ _ => false
  | _ => true

/-- `InternalRecipientStatus` from `src/recipient_status.rs`. -/
structure InternalRecipientStatus where
  email_addr : String
  smtp_email_addr : String
  domain : String
  mx_servers : Option (List String)
  current_mx : Nat
  result : DeliveryResult
deriving DecidableEq, Repr

instance : Inhabited InternalRecipientStatus :=
  ⟨{ email_addr := "", smtp_email_addr := "", domain := "",
     mx_servers := none, current_mx := 0, result := .Queued }⟩

/-- `InternalMessageStatus` from `src/message_status.rs`.
`attempts_remaining` is a Rust `u8`. -/
structure InternalMessageStatus where
  message_id : String
  recipients : List InternalRecipientStatus
  attempts_remaining : Nat
deriving DecidableEq, Repr

/-- `PreparedEmail` from `src/prepared_email.rs`.  The byte image
`message : Vec<u8>` is modelled as a list of bytes.  The Rust fields
`to` and `from` are named `toList` and `fromAddr` here because both
words are reserved tokens in this Lean environment. -/
structure PreparedEmail where
  toList : List String
  fromAddr : String
  message_id : String
  message : List Nat
deriving DecidableEq, Repr

/-- `SmtpAuth` from `src/config.rs`. -/
structure SmtpAuth where
  username : String
  password : String
deriving DecidableEq, Repr

/-- `RelayConfig` from `src/config.rs`. -/
structure RelayConfig where
  domain_name : String
  port : Option Nat
  use_tls : Bool
  auth : Option SmtpAuth
deriving DecidableEq, Repr

/-- `DeliveryConfig` from `src/config.rs`.  The `Remote` variant's
`resolver_setup` payload only selects how the DNS resolver is
constructed; delivery planning and delivery itself never read it, so it
is not carried here. -/
inductive DeliveryConfig where
  | Relay (rc : RelayConfig) : DeliveryConfig
  | Remote : DeliveryConfig
deriving DecidableEq, Repr

/-- `Config` from `src/config.rs`. -/
structure Config where
  helo_name : String
  smtp_timeout_secs : Nat
  base_resend_delay_secs : Nat
  require_tls : Bool
  delivery : DeliveryConfig
deriving DecidableEq, Repr

/-! ## Task queue (`src/worker/task.rs` and the `BTreeSet<Task>` in
`src/worker/mod.rs`)

`Task` derives its ordering and equality *solely from the `time` field*:
`impl Ord for Task` compares `self.time` with `other.time`, and
`impl PartialEq for Task` likewise compares only `time`.  The worker
keeps tasks in a `BTreeSet<Task>`, which therefore holds at most one
task per distinct due time.  `Instant` is modelled as `Nat`. -/

/-- `TaskType` from `src/worker/task.rs`. -/
inductive TaskType where
  | Resend : TaskType
deriving DecidableEq, Repr

/-- `Task` from `src/worker/task.rs`.  `time` models the `Instant`. -/
structure Task where
  tasktype : TaskType
  time : Nat
  message_id : String
deriving DecidableEq, Repr

/-- The `BTreeSet<Task>` is modelled as a list strictly sorted by the
`Ord` instance of `Task`, i.e. strictly increasing in `time`.
`insertTask` models `BTreeSet::insert`: the element is placed at its
ordered position, and the insert is a no-op when an element comparing
`Equal` (same `time`) is already present. -/
def insertTask : List Task → Task → List Task
  | [], t => [t]
  | x :: xs, t =>
    match compare t.time x.time with
    | .lt => t :: x :: xs
    | .eq => x :: xs
    | .gt => x :: insertTask xs t

/-- Models `BTreeSet::remove` (used at `self.tasks.remove(task)` in
`Worker::run`): removes the element comparing `Equal` to the argument,
i.e. the element with the same `time`, irrespective of its `tasktype`
and `message_id` fields. -/
def removeTask : List Task → Task → List Task
  | [], _ => []
  | x :: xs, t => if t.time = x.time then xs else x :: removeTask xs t

/-! ## MX resolution (`src/worker/mx.rs`) -/

/-- The outcome of `resolver.mx_lookup(domain)`: a resolver error, or a
list of `(preference, exchange)` records (`u16` preference, and the
exchange name as produced by `mx.exchange().to_string()`). -/
inductive MxLookupResult where
  | err : MxLookupResult
  | ok (records : List (Nat × String)) : MxLookupResult
deriving DecidableEq, Repr

/-- One insertion step of a stable insertion sort: `x` (which originally
precedes every element of the already-sorted list) is placed before the
first element it does not compare strictly greater than, so elements
comparing `Equal` keep their original relative order. -/
def insertByCmp (cmp : α → α → Ordering) (x : α) : List α → List α
  | [] => [x]
  | y :: ys =>
    match cmp x y with
    | .gt => y :: insertByCmp cmp x ys
    | _ => x :: y :: ys

/-- Stable insertion sort by a comparator, modelling Rust's stable
`slice::sort_by`. -/
def stableSort (cmp : α → α → Ordering) : List α → List α
  | [] => []
  | x :: xs => insertByCmp cmp x (stableSort cmp xs)

/-- Whether the last character of the exchange string is an ASCII digit:
`s.chars().rev().next()` is the last character and `is_digit(10)` the
ASCII-digit test (from the second `sort_by` in
`get_mx_records_for_domain`, and `is_ip` in `src/worker/mod.rs`). -/
def endsInDigit (s : String) : Bool :=
  match s.data.getLast? with
  | some c => c.isDigit
  | none => false

/-- The comparator of the second `records.sort_by` in
`get_mx_records_for_domain` (`src/worker/mx.rs`, lines 72–88): compares
only the "ends in a digit" classification of the exchange strings,
returning `Less` when the left record ends in a digit and the right one
does not. -/
def ipCmp (a b : Nat × String) : Ordering :=
  match endsInDigit a.2, endsInDigit b.2 with
  | true, false => .lt
  | false, true => .gt
  | _, _ => .eq

/-- `get_mx_records_for_domain` from `src/worker/mx.rs` (lines 44–91).
On resolver error or an empty answer set it falls back to `[domain]`
(RFC 5321).  Otherwise it stably sorts the records by preference
ascending, then stably re-sorts with `ipCmp`, and returns the exchange
strings.  (The exchange strings are returned verbatim; no trailing-dot
stripping occurs in this function.) -/
def get_mx_records_for_domain (domain : String) (resp : MxLookupResult) :
    List String :=
  match resp with
  | .err => [domain]
  | .ok records =>
    if records.length = 0 then [domain]
    else
      let sorted1 := stableSort (fun a b => compare a.1 b.1) records
      let sorted2 := stableSort ipCmp sorted1
      sorted2.map Prod.snd

/-! ## Worker engine (`src/worker/mod.rs`)

The SMTP client and the DNS resolver are effectful collaborators; they
are passed to the worker functions as oracles.  `SmtpOracle` stands for
`smtp_delivery(&email, &server, config)`, and the `mxLookup` oracle
stands for the per-domain part of `get_mx_records_for_email`: the list
of MX server entries for a domain that survive the `to_socket_addrs`
validity filter. -/

/-- The type of `smtp_delivery` as called by the worker. -/
abbrev SmtpOracle := PreparedEmail → String → Config → DeliveryResult

/-- `MxDelivery` from `src/worker/mod.rs` (lines 356–359). -/
structure MxDelivery where
  mx_server : String
  recipients : List Nat
deriving DecidableEq, Repr

/-- The body of the "Add to our MxDelivery vector" step of
`plan_mxdelivery_sessions` (lines 430–446): find the entry whose
`mx_server` equals `server` and push `r` onto its recipient list, or
append a new entry when none exists. -/
def addToPlan : List MxDelivery → String → Nat → List MxDelivery
  | [], server, r => [⟨server, [r]⟩]
  | mxd :: rest, server, r =>
    if mxd.mx_server = server then
      ⟨mxd.mx_server, mxd.recipients ++ [r]⟩ :: rest
    else
      mxd :: addToPlan rest server r

/-- The tail of one iteration of the planning loop, reached when the
recipient was not skipped: fail it if `mx_servers` is `None`, otherwise
add its index to the plan under each of its exchanges from `current_mx`
onward (lines 418–446). -/
def planRecipientMx (recip : InternalRecipientStatus)
    (deliveries : List MxDelivery) (r_index : Nat) :
    InternalRecipientStatus × List MxDelivery :=
  match recip.mx_servers with
  | none =>
    ({ recip with result := .Failed "MX records found but none are valid" },
      deliveries)
  | some mx_servers =>
    (recip,
      (mx_servers.drop recip.current_mx).foldl
        (fun ds item => addToPlan ds item r_index) deliveries)

/-- One iteration of the planning loop of `plan_mxdelivery_sessions`
(lines 392–447): skip completed recipients; fail (and skip) recipients
already deferred 5 or more times; then plan by MX server. -/
def planRecipient (recip : InternalRecipientStatus)
    (deliveries : List MxDelivery) (r_index : Nat) :
    InternalRecipientStatus × List MxDelivery :=
  match recip.result with
  | .Delivered _ => (recip, deliveries)
  | .Failed _ => (recip, deliveries)
  | .Deferred attempts msg =>
    if 5 ≤ attempts then
      ({ recip with result := .Failed ("Failed after 5 attempts: " ++ msg) },
        deliveries)
    else
      planRecipientMx recip deliveries r_index
  | .Queued => planRecipientMx recip deliveries r_index

/-- The planning loop over `0..recipients.len()`, threading the mutated
recipient list and the accumulating plan.  `i` is the index of the head
recipient. -/
def planRemoteLoop : List InternalRecipientStatus → Nat → List MxDelivery →
    List InternalRecipientStatus × List MxDelivery
  | [], _, deliveries => ([], deliveries)
  | recip :: rest, i, deliveries =>
    let (recip', deliveries') := planRecipient recip deliveries i
    let (rest', deliveries'') := planRemoteLoop rest (i + 1) deliveries'
    (recip' :: rest', deliveries'')

/-- `plan_mxdelivery_sessions` from `src/worker/mod.rs` (lines 378–450).
For relay delivery the plan is a single step holding every recipient
index; for direct delivery the loop above runs.  Returns the (possibly
mutated) status together with the plan. -/
def plan_mxdelivery_sessions (ims : InternalMessageStatus) (config : Config) :
    InternalMessageStatus × List MxDelivery :=
  match config.delivery with
  | .Relay relay_config =>
    (ims, [⟨relay_config.domain_name, List.range ims.recipients.length⟩])
  | .Remote =>
    let (recips', deliveries) := planRemoteLoop ims.recipients 0 []
    ({ ims with recipients := recips' }, deliveries)

/-- The "Rebuild the 'To:' list" step of `deliver_to_one_server`
(lines 468–481): the step's recipients whose delivery has not already
completed.  Indices produced by planning are always in range; an
out-of-range index (which would panic in Rust) reads the `default`
recipient here. -/
def rebuildTo (recipients : List InternalRecipientStatus) (idxs : List Nat) :
    List String :=
  idxs.filterMap fun r =>
    let recip := recipients.getD r default
    if recip.result.completed then none else some recip.smtp_email_addr

/-- The per-recipient result mapping of `deliver_to_one_server`
(lines 497–519): when the session outcome is `Deferred` and the
recipient's previous result was `Deferred(attempts, _)`, bump to
`Deferred(attempts + 1, newmsg)` (a `u8` addition, taken `% 256`);
otherwise copy the session outcome verbatim. -/
def applyResultToRecipient (result : DeliveryResult)
    (recips : List InternalRecipientStatus) (r : Nat) :
    List InternalRecipientStatus :=
  let recip := recips.getD r default
  let newResult : DeliveryResult :=
    match result, recip.result with
    | .Deferred _ newmsg, .Deferred attempts _ =>
      .Deferred ((attempts + 1) % 256) newmsg
    | _, _ => result
  recips.set r { recip with result := newResult }

/-- `deliver_to_one_server` from `src/worker/mod.rs` (lines 454–522).
Returns the updated recipient list and `true` iff no recipient delivery
was deferred by this step.  The `deferred_some` flag is set inside the
mapping loop exactly when the session outcome is `Deferred` (and the
step has at least one recipient). -/
def deliver_to_one_server (email : PreparedEmail)
    (recipients : List InternalRecipientStatus) (config : Config)
    (mx_delivery : MxDelivery) (smtp : SmtpOracle) :
    List InternalRecipientStatus × Bool :=
  let toL := rebuildTo recipients mx_delivery.recipients
  if toL.isEmpty then
    -- Skip this MX server if no addresses to deliver to
    (recipients, true)
  else
    let result := smtp { email with toList := toL } mx_delivery.mx_server config
    let recipients' :=
      mx_delivery.recipients.foldl (applyResultToRecipient result) recipients
    let deferred_some :=
      (match result with
       | .Deferred _ _ => !mx_delivery.recipients.isEmpty
       | _ => false)
    (recipients', !deferred_some)

/-- The delivery loop of `deliver_to_all_servers` (lines 371–375),
threading the recipient list and the `complete &= …` flag. -/
def deliverLoop (email : PreparedEmail) (config : Config) (smtp : SmtpOracle) :
    List MxDelivery → List InternalRecipientStatus → Bool →
    List InternalRecipientStatus × Bool
  | [], recips, complete => (recips, complete)
  | mxd :: rest, recips, complete =>
    let (recips', ok) := deliver_to_one_server email recips config mxd smtp
    deliverLoop email config smtp rest recips' (complete && ok)

/-- `deliver_to_all_servers` from `src/worker/mod.rs` (lines 363–376):
plan, then deliver step by step.  Returns the updated status and `true`
iff the job is done. -/
def deliver_to_all_servers (email : PreparedEmail)
    (ims : InternalMessageStatus) (config : Config) (smtp : SmtpOracle) :
    InternalMessageStatus × Bool :=
  let (ims', plan) := plan_mxdelivery_sessions ims config
  let (recips', complete) := deliverLoop email config smtp plan ims'.recipients true
  ({ ims' with recipients := recips' }, complete)

/-- `get_mx_records_for_email` from `src/worker/mx.rs` (lines 7–41), with
the DNS query and socket-address validation abstracted into the
`mxLookup` oracle (per domain, the list of MX entries surviving the
`to_socket_addrs` filter).  For each recipient: if the surviving list is
empty, the recipient's result is set to
`Failed("MX records found but none are valid")`; otherwise its
`mx_servers` field is set. -/
def get_mx_records_for_email (mxLookup : String → List String)
    (ims : InternalMessageStatus) : InternalMessageStatus :=
  { ims with
    recipients := ims.recipients.map fun recipient =>
      let records := mxLookup recipient.domain
      if records.isEmpty then
        { recipient with
          result := .Failed "MX records found but none are valid" }
      else
        { recipient with mx_servers := some records } }

/-- The "Determine MX records only if doing remote delivery" stage of
`send_email` (`src/worker/mod.rs`, lines 260–282): resolve only when the
configuration is `Remote` and some recipient has `mx_servers == None`. -/
def resolveStage (config : Config) (mxLookup : String → List String)
    (ims : InternalMessageStatus) : InternalMessageStatus :=
  match config.delivery with
  | .Remote =>
    if ims.recipients.any (fun r => r.mx_servers.isNone) then
      get_mx_records_for_email mxLookup ims
    else ims
  | .Relay _ => ims

/-- The rewrite applied to one recipient by the "Fail all recipients
after too many worker attempts" block of `send_email` (lines 284–299). -/
def failExhausted (recip : InternalRecipientStatus) : InternalRecipientStatus :=
  match recip.result with
  | .Deferred attempts msg =>
    { recip with
      result := .Failed ("Too many attempts (" ++ toString attempts ++ "): " ++ msg) }
  | _ => recip

/-- The exhaustion stage of `send_email` (lines 284–299): when the pass
is entered with `attempts_remaining == 0`, rewrite every recipient still
`Deferred` to `Failed`. -/
def exhaustStage (ims : InternalMessageStatus) : InternalMessageStatus :=
  if ims.attempts_remaining = 0 then
    { ims with recipients := ims.recipients.map failExhausted }
  else ims

/-- `Worker::send_email` from `src/worker/mod.rs` (lines 252–335), with
storage interaction elided (the claims concern passes in which
`update_status` succeeds).  Returns `none` when the unchecked
`attempts_remaining -= 1` (line 305) underflows — a `u8` subtraction
below zero, which panics in a Rust debug build.  Otherwise returns the
updated status together with `some delay` when a `Resend` task is
inserted `delay` seconds in the future (lines 314–332), or `none` when
no retry is scheduled. -/
def send_email (email : PreparedEmail) (ims : InternalMessageStatus)
    (config : Config) (mxLookup : String → List String) (smtp : SmtpOracle) :
    Option (InternalMessageStatus × Option Nat) :=
  let ims2 := exhaustStage (resolveStage config mxLookup ims)
  let dres := deliver_to_all_servers email ims2 config smtp
  let attempts' : Option Nat :=
    if dres.2 then some 0
    else if dres.1.attempts_remaining = 0 then none
    else some (dres.1.attempts_remaining - 1)
  match attempts' with
  | none => none
  | some a =>
    let ims4 := { dres.1 with attempts_remaining := a }
    if 0 < a then
      -- exponential backoff: attempt = 3 - attempts_remaining
      some (ims4, some (config.base_resend_delay_secs * 3 ^ (3 - a)))
    else
      some (ims4, none)

/-! ## SMTP result classification (`src/worker/smtp.rs`, lines 128–222)

The outcome of `mailer.send(sendable_email)` is modelled as a closed
sum mirroring `Result<Response, lettre::smtp::error::Error>`.  String
payloads carry the `{:?}`/`{}` renderings that the code interpolates
into the produced `DeliveryResult` strings.  An I/O error is modelled by
its `ErrorKind` together with its `{:?}` debug rendering, which the code
inspects for the error kinds that stable Rust does not yet expose as
enum variants. -/

/-- `lettre::smtp::response::Severity`. -/
inductive Severity where
  | PositiveCompletion
  | PositiveIntermediate
  | TransientNegativeCompletion
  | PermanentNegativeCompletion
deriving DecidableEq, Repr

/-- `std::io::ErrorKind`, restricted to the kinds the code names plus
representative others. -/
inductive IoErrorKind where
  | ConnectionRefused
  | ConnectionReset
  | ConnectionAborted
  | AddrInUse
  | BrokenPipe
  | TimedOut
  | Interrupted
  | HostUnreachable
  | NetworkUnreachable
  | NetworkDown
  | ResourceBusy
  | NotFound
  | PermissionDenied
  | AddrNotAvailable
  | WouldBlock
  | InvalidData
  | UnexpectedEof
  | OtherKind
deriving DecidableEq, Repr

/-- The outcome of `mailer.send`: a positive/negative SMTP response, or
one of `lettre`'s error variants. -/
inductive SmtpSendResult where
  | ok (severity : Severity) (responseDebug : String)
  | errTransient (responseDebug : String)
  | errPermanent (responseDebug : String)
  | errResolution
  | errResponseParsing (s : String)
  | errChallengeParsing (debugRep : String)
  | errUtf8Parsing (debugRep : String)
  | errClient (s : String)
  | errIo (kind : IoErrorKind) (debugRep : String)
  | errTls (debugRep : String)
  | errParsing (debugRep : String)
deriving DecidableEq, Repr

/-- Whether `pat` is a prefix of `l` (character lists). -/
def charsHavePrefix : List Char → List Char → Bool
  | [], _ => true
  | _ :: _, [] => false
  | c :: cs, d :: ds => c = d && charsHavePrefix cs ds

/-- Whether `pat` occurs as a contiguous substring of `l`. -/
def charsContain : List Char → List Char → Bool
  | [], pat => pat.isEmpty
  | c :: rest, pat => charsHavePrefix pat (c :: rest) || charsContain rest pat

/-- Rust `str::contains(pat)`: substring search. -/
def strContains (s pat : String) : Bool :=
  charsContain s.data pat.data

/-- `IGNORED_ATTEMPTS` from `src/worker/smtp.rs` (line 120): the
placeholder attempt count placed in `Deferred` results. -/
def IGNORED_ATTEMPTS : Nat := 1

/-- The seven `ErrorKind`s handled as direct match arms in the
`LettreSmtpError::Io` branch (lines 176–187). -/
def stableDeferredIoKinds : List IoErrorKind :=
  [.ConnectionRefused, .ConnectionReset, .ConnectionAborted, .AddrInUse,
   .BrokenPipe, .TimedOut, .Interrupted]

/-- The `LettreSmtpError::Io` branch (lines 174–209): defer on the seven
stable kinds; otherwise inspect the debug rendering for the four kinds
that stable Rust does not represent as `ErrorKind` variants, deferring
on a match and failing otherwise. -/
def classifyIoError (kind : IoErrorKind) (debugRep : String) : DeliveryResult :=
  if stableDeferredIoKinds.contains kind then
    .Deferred IGNORED_ATTEMPTS ("I/O error: " ++ debugRep)
  else if strContains debugRep "kind: HostUnreachable"
       || strContains debugRep "kind: NetworkUnreachable"
       || strContains debugRep "kind: NetworkDown"
       || strContains debugRep "kind: ResourceBusy" then
    .Deferred IGNORED_ATTEMPTS ("I/O error: " ++ debugRep)
  else
    .Failed ("I/O error: " ++ debugRep)

/-- The result classification of `smtp_delivery` (`src/worker/smtp.rs`,
lines 128–222): the `match mailer.send(sendable_email)` expression. -/
def smtp_delivery_classification : SmtpSendResult → DeliveryResult
  | .ok severity responseDebug =>
    match severity with
    | .PositiveCompletion => .Delivered responseDebug
    | .PositiveIntermediate => .Delivered responseDebug
    | .TransientNegativeCompletion => .Deferred IGNORED_ATTEMPTS responseDebug
    | .PermanentNegativeCompletion => .Failed responseDebug
  | .errTransient responseDebug => .Deferred IGNORED_ATTEMPTS responseDebug
  | .errPermanent responseDebug => .Failed responseDebug
  | .errResolution => .Deferred IGNORED_ATTEMPTS "DNS resolution failed"
  | .errResponseParsing s => .Failed ("response parsing error: " ++ s)
  | .errChallengeParsing debugRep => .Failed ("challenge parsing error: " ++ debugRep)
  | .errUtf8Parsing debugRep => .Failed ("utf8 parsing error: " ++ debugRep)
  | .errClient s => .Failed ("internal client error: " ++ s)
  | .errIo kind debugRep => classifyIoError kind debugRep
  | .errTls debugRep => .Failed ("TLS error: " ++ debugRep)
  | .errParsing debugRep => .Failed ("Parsing error: " ++ debugRep)

/-! ## Message preparation (`src/prepared_email.rs`, lines 80–144)

The `email_format` address model is embedded structurally: a mailbox is
represented by the three strings the code extracts from it with
`format!` (display form, addr-spec, and the addr-spec's domain), and
the `To`/`Cc`/`Bcc` accessors by the optional address lists they
return. -/

/-- A mailbox, by the three renderings `recipient_from_mailbox` takes of
it (both the `NameAddr` and the `AddrSpec` arms produce exactly these). -/
structure MailboxData where
  display : String
  addrSpec : String
  addrDomain : String
deriving DecidableEq, Repr

/-- `email_format::rfc5322::types::GroupList`. -/
inductive GroupListData where
  | MailboxList (mbs : List MailboxData)
  | CFWS
deriving DecidableEq, Repr

/-- An address group: display name elided (unused), optional group list. -/
structure GroupData where
  group_list : Option GroupListData
deriving DecidableEq, Repr

/-- `email_format::rfc5322::types::Address`. -/
inductive AddressData where
  | Mailbox (mb : MailboxData)
  | Group (grp : GroupData)
deriving DecidableEq, Repr

/-- `email_format::rfc5322::headers::Bcc`: an address list, or
whitespace/comments only. -/
inductive BccValue where
  | AddressList (al : List AddressData)
  | CFWSOnly
deriving DecidableEq, Repr

/-- The header accessors of `email_format::Email` that
`determine_recipients` consumes. -/
structure EmailHeaders where
  toHeader : Option (List AddressData)
  ccHeader : Option (List AddressData)
  bccHeader : Option BccValue
deriving DecidableEq, Repr

/-- Rust `str::trim`: strip leading and trailing whitespace
characters. -/
def strTrim (s : String) : String :=
  ⟨((s.data.dropWhile Char.isWhitespace).reverse.dropWhile
      Char.isWhitespace).reverse⟩

/-- `recipient_from_mailbox` from `src/prepared_email.rs`
(lines 122–144). -/
def recipient_from_mailbox (mb : MailboxData) : InternalRecipientStatus :=
  { email_addr := strTrim mb.display,
    smtp_email_addr := strTrim mb.addrSpec,
    domain := strTrim mb.addrDomain,
    mx_servers := none,
    current_mx := 0,
    result := .Queued }

/-- The tail of `Vec::dedup` below: drop elements equal to the last
retained element `prev`. -/
def dedupAfter [DecidableEq α] (prev : α) : List α → List α
  | [] => []
  | b :: rest => if prev = b then dedupAfter prev rest else b :: dedupAfter b rest

/-- `Vec::dedup`: remove *consecutive* equal elements, keeping the first
of each run. -/
def dedupConsecutive [DecidableEq α] : List α → List α
  | [] => []
  | a :: rest => a :: dedupAfter a rest

/-- The address-collection phase of `determine_recipients`
(lines 81–93): `To`, then `Cc`, then `Bcc` (only when the `Bcc` header
holds an address list). -/
def collectAddresses (email : EmailHeaders) : List AddressData :=
  (email.toHeader.getD []) ++ (email.ccHeader.getD []) ++
    (match email.bccHeader with
     | some (.AddressList al) => al
     | _ => [])

/-- The expansion of one address in the loop of `determine_recipients`
(lines 99–117): a mailbox yields one recipient; a group yields its
mailbox list, or nothing when its group list is absent or
comments-only. -/
def expandAddress : AddressData → List InternalRecipientStatus
  | .Mailbox mb => [recipient_from_mailbox mb]
  | .Group grp =>
    match grp.group_list with
    | some (.MailboxList mbl) => mbl.map recipient_from_mailbox
    | some .CFWS => []
    | none => []

/-- `determine_recipients` from `src/prepared_email.rs` (lines 80–120):
collect `To ++ Cc ++ Bcc`, apply `Vec::dedup` to the *address* list, and
expand each address into recipients. -/
def determine_recipients (email : EmailHeaders) : List InternalRecipientStatus :=
  (dedupConsecutive (collectAddresses email)).foldl
    (fun recips addr => recips ++ expandAddress addr) []

/-! ## Reference storage (`src/storage/memory_storage.rs`)

The `HashMap<String, Record>` is modelled as an association list keyed
by `message_id`; `values()`/`values_mut()` iterate in list order (which
order is irrelevant to the claims proved below). -/

/-- `Record` from `src/storage/memory_storage.rs` (lines 33–37), minus
the stored `PreparedEmail` (no claim consumes it). -/
structure StorageRecord where
  status : InternalMessageStatus
  retrieved : Bool
deriving DecidableEq, Repr

/-- The in-memory store. -/
abbrev MemoryStorage := List (String × StorageRecord)

/-- `MemoryStorage::update_status` (lines 67–78): replace the status of
the record keyed by `status.message_id`; when the key is absent the map
is left unchanged (the `NotFound` error is returned to the caller). -/
def update_status (storage : MemoryStorage) (ims : InternalMessageStatus) :
    MemoryStorage :=
  storage.map fun kr =>
    if kr.1 = ims.message_id then (kr.1, { kr.2 with status := ims }) else kr

/-- `MemoryStorage::retrieve_all_recent` (lines 115–131): returns every
status with `attempts_remaining > 0`; a status with
`attempts_remaining == 0` is returned only when its `retrieved` flag is
still `false`, and that flag is then set.  Returns the mutated store and
the returned statuses. -/
def retrieve_all_recent : MemoryStorage →
    MemoryStorage × List InternalMessageStatus
  | [] => ([], [])
  | (k, r) :: rest =>
    let (rest', out) := retrieve_all_recent rest
    if r.status.attempts_remaining = 0 then
      if r.retrieved then ((k, r) :: rest', out)
      else ((k, { r with retrieved := true }) :: rest', r.status :: out)
    else ((k, r) :: rest', r.status :: out)

/-- An operation on the storage: a worker `update_status`, or an
embedder `retrieve_all_recent` (`query_recent`).  `store` is excluded:
claim C9 ranges over sequences with no intervening `store`. -/
inductive StorageOp where
  | update (ims : InternalMessageStatus)
  | recent
deriving Repr

/-- Run a sequence of storage operations, collecting the output of every
`retrieve_all_recent` call in order. -/
def runOps : MemoryStorage → List StorageOp →
    MemoryStorage × List (List InternalMessageStatus)
  | st, [] => (st, [])
  | st, .update ims :: ops => runOps (update_status st ims) ops
  | st, .recent :: ops =>
    let (st', out) := retrieve_all_recent st
    let (st'', outs) := runOps st' ops
    (st'', out :: outs)

/-- Well-formedness of the store: each record's status carries the key
it is filed under, and keys are unique (both automatic for a
`HashMap<String, Record>` populated by `store`/`update_status`). -/
def storageWF (st : MemoryStorage) : Prop :=
  (∀ kr ∈ st, kr.2.status.message_id = kr.1) ∧ (st.map Prod.fst).Nodup

/-- Whether one `retrieve_all_recent` output reports message `m` as
completed (`attempts_remaining == 0`). -/
def outputHasCompleted (m : String) (out : List InternalMessageStatus) : Bool :=
  out.any fun s => s.message_id = m && s.attempts_remaining = 0

/-! ## Concrete scenarios -/

/-- A relay configuration with a 60-second backoff base. -/
def scenarioRelayConfig : Config :=
  { helo_name := "localhost", smtp_timeout_secs := 60,
    base_resend_delay_secs := 60, require_tls := false,
    delivery := .Relay
      { domain_name := "smtp.example.net", port := none,
        use_tls := false, auth := none } }

/-- A direct-delivery (Remote) configuration. -/
def remoteConfig : Config :=
  { helo_name := "localhost", smtp_timeout_secs := 60,
    base_resend_delay_secs := 60, require_tls := false,
    delivery := .Remote }

/-- A single queued recipient. -/
def scenarioRecipient : InternalRecipientStatus :=
  { email_addr := "a@x.test", smtp_email_addr := "a@x.test",
    domain := "x.test", mx_servers := none, current_mx := 0,
    result := .Queued }

/-- A freshly prepared single-recipient message (attempts_remaining 3). -/
def scenarioStatus : InternalMessageStatus :=
  { message_id := "mid-1", recipients := [scenarioRecipient],
    attempts_remaining := 3 }

/-- The prepared email of the single-recipient scenario. -/
def scenarioEmail : PreparedEmail :=
  { toList := ["a@x.test"], fromAddr := "sender@y.test",
    message_id := "mid-1", message := [] }

/-- An SMTP oracle whose every session yields a transient 4xx outcome
(the attempt count 1 is `IGNORED_ATTEMPTS`). -/
def smtpAlwaysDefer : SmtpOracle := fun _ _ _ => .Deferred 1 "450 busy"

/-- An MX oracle that never finds valid records (unused under relay
configurations). -/
def noLookup : String → List String := fun _ => []

/-- The single-recipient status after one deferring pass. -/
def scenarioStatus1 : InternalMessageStatus :=
  { message_id := "mid-1",
    recipients := [{ scenarioRecipient with result := .Deferred 1 "450 busy" }],
    attempts_remaining := 2 }

/-- The single-recipient status after two deferring passes. -/
def scenarioStatus2 : InternalMessageStatus :=
  { message_id := "mid-1",
    recipients := [{ scenarioRecipient with result := .Deferred 2 "450 busy" }],
    attempts_remaining := 1 }

/-- The single-recipient status after three deferring passes. -/
def scenarioStatus3 : InternalMessageStatus :=
  { message_id := "mid-1",
    recipients := [{ scenarioRecipient with result := .Deferred 3 "450 busy" }],
    attempts_remaining := 0 }

/-- The single-recipient message already at `attempts_remaining == 0`
with its recipient still `Queued`. -/
def exhaustedQueuedStatus : InternalMessageStatus :=
  { message_id := "mid-3", recipients := [scenarioRecipient],
    attempts_remaining := 0 }

/-- Direct-delivery recipient with two MX exchanges. -/
def recipA : InternalRecipientStatus :=
  { email_addr := "a@one.test", smtp_email_addr := "a@one.test",
    domain := "one.test", mx_servers := some ["mx1.test", "mx2.test"],
    current_mx := 0, result := .Queued }

/-- Direct-delivery recipient with a single MX exchange, shared with
`recipA`'s second exchange. -/
def recipB : InternalRecipientStatus :=
  { email_addr := "b@two.test", smtp_email_addr := "b@two.test",
    domain := "two.test", mx_servers := some ["mx2.test"],
    current_mx := 0, result := .Queued }

/-- The two-recipient direct-delivery message. -/
def twoRecipStatus : InternalMessageStatus :=
  { message_id := "mid-2", recipients := [recipA, recipB],
    attempts_remaining := 3 }

/-- The prepared email of the two-recipient scenario. -/
def twoRecipEmail : PreparedEmail :=
  { toList := ["a@one.test", "b@two.test"], fromAddr := "sender@y.test",
    message_id := "mid-2", message := [] }

/-- An SMTP oracle: `mx1.test` accepts the mail, every other server
returns a permanent 5xx. -/
def smtpSplit : SmtpOracle := fun _ server _ =>
  if server = "mx1.test" then .Delivered "250 ok"
  else .Failed "550 mailbox unavailable"

/-- `recipA` once its delivery has completed successfully. -/
def recipADelivered : InternalRecipientStatus :=
  { recipA with result := .Delivered "250 ok" }

/-- Two tasks with the same due time but different message ids. -/
def taskA : Task := { tasktype := .Resend, time := 5, message_id := "msg-a" }

/-- See `taskA`. -/
def taskB : Task := { tasktype := .Resend, time := 5, message_id := "msg-b" }

/-- Mailbox `a@x.test` (used twice, non-adjacently, in the `To` header
below). -/
def mbA : MailboxData :=
  { display := "a@x.test", addrSpec := "a@x.test", addrDomain := "x.test" }

/-- Mailbox `b@x.test`. -/
def mbB : MailboxData :=
  { display := "b@x.test", addrSpec := "b@x.test", addrDomain := "x.test" }

/-- Headers whose `To` list repeats `a@x.test` non-adjacently. -/
def dupEmailHeaders : EmailHeaders :=
  { toHeader := some [.Mailbox mbA, .Mailbox mbB, .Mailbox mbA],
    ccHeader := none, bccHeader := none }

/-! ## Claim theorems -/

/-- Claim C1 (code bug): terminal stickiness fails inside a single
worker pass.  With recipient A on exchanges `[mx1, mx2]` and recipient B
on `[mx2]`, the `mx1` step delivers A (`Delivered("250 ok")`, a
completed result).  The `mx2` step correctly omits A from its rebuilt
`to` list, but its result-mapping loop then overwrites A's completed
result with the `mx2` session outcome (`Failed("550 …")`), both in the
isolated `deliver_to_one_server` step and across the whole
`send_email` pass. -/
theorem deliver_to_one_server_overwrites_completed_result :
    (deliver_to_one_server twoRecipEmail [recipA, recipB] remoteConfig
        ⟨"mx1.test", [0]⟩ smtpSplit).1 = [recipADelivered, recipB] ∧
    recipADelivered.result.completed = true ∧
    ((deliver_to_one_server twoRecipEmail [recipADelivered, recipB] remoteConfig
        ⟨"mx2.test", [0, 1]⟩ smtpSplit).1.map (fun r => r.result))
      = [.Failed "550 mailbox unavailable", .Failed "550 mailbox unavailable"] ∧
    (send_email twoRecipEmail twoRecipStatus remoteConfig noLookup smtpSplit)
      = some ({ message_id := "mid-2",
                recipients :=
                  [{ recipA with result := .Failed "550 mailbox unavailable" },
                   { recipB with result := .Failed "550 mailbox unavailable" }],
                attempts_remaining := 0 }, none) := by
  decide

/-- Claim C2 (code bug): a single recipient deferred on three successive
passes ends the third pass — the pass that zeroes `attempts_remaining` —
still `Deferred(3, …)`, not `Failed("Too many attempts (3): …")`; since
no retry task is scheduled (`none`), the exhaustion rewrite at the top
of `send_email` never runs on this message again. -/
theorem attempt_exhaustion_leaves_deferred :
    send_email scenarioEmail scenarioStatus scenarioRelayConfig noLookup
        smtpAlwaysDefer = some (scenarioStatus1, some 180) ∧
    send_email scenarioEmail scenarioStatus1 scenarioRelayConfig noLookup
        smtpAlwaysDefer = some (scenarioStatus2, some 540) ∧
    send_email scenarioEmail scenarioStatus2 scenarioRelayConfig noLookup
        smtpAlwaysDefer = some (scenarioStatus3, none) ∧
    scenarioStatus3.attempts_remaining = 0 ∧
    scenarioStatus3.recipients.map (fun r => r.result)
      = [.Deferred 3 "450 busy"] ∧
    (∀ r ∈ scenarioStatus3.recipients, r.result.completed = false) := by
  decide

/-- Claim C3 (counterexample): the first deferring pass of a fresh
message (base delay 60 s) schedules its retry 180 s out — three times
the base delay — whereas the claim's schedule (1x, 3x, 9x) calls for
60 s. -/
theorem first_retry_delay_is_triple_base :
    send_email scenarioEmail scenarioStatus scenarioRelayConfig noLookup
        smtpAlwaysDefer = some (scenarioStatus1, some 180) ∧
    scenarioRelayConfig.base_resend_delay_secs = 60 ∧
    (180 : Nat) ≠ 1 * 60 := by
  decide

/-- Claim C4 (code bug): the secondary sort of
`get_mx_records_for_domain` moves exchanges ending in an ASCII digit to
the *front* (its comparator returns `Less` for digit-ending vs
non-digit-ending), not to the end as claimed; and trailing dots are not
stripped.  The RFC 5321 fallbacks (resolver error, empty answer set) do
hold. -/
theorem mx_records_reorder_and_dot_behaviour :
    get_mx_records_for_domain "ex.test"
        (.ok [(10, "mx.ex.test"), (20, "192.0.2.1")])
      = ["192.0.2.1", "mx.ex.test"] ∧
    (["192.0.2.1", "mx.ex.test"] : List String)
      ≠ ["mx.ex.test", "192.0.2.1"] ∧
    get_mx_records_for_domain "ex.test" (.ok [(5, "mx.ex.test.")])
      = ["mx.ex.test."] ∧
    get_mx_records_for_domain "tiny.test" .err = ["tiny.test"] ∧
    get_mx_records_for_domain "tiny.test" (.ok []) = ["tiny.test"] := by
  decide

/-- Claim C5 (counterexample): task identity is equality of `time`
alone, so of two tasks with equal due times and different message ids
the second is not inserted at all, and removing one removes the
other. -/
theorem equal_time_tasks_collide :
    taskA.message_id ≠ taskB.message_id ∧
    taskA.time = taskB.time ∧
    insertTask [taskA] taskB = [taskA] ∧
    removeTask [taskA] taskB = [] := by
  decide

/-- Claim C6 (counterexample): a pass entered with
`attempts_remaining == 0` whose delivery defers a (still `Queued`)
recipient reaches the unchecked `attempts_remaining -= 1` at zero: the
`u8` subtraction underflows (modelled as `none`; a panic in a Rust debug
build), so the decrement is not saturating. -/
theorem attempts_decrement_underflows_at_zero :
    send_email scenarioEmail exhaustedQueuedStatus scenarioRelayConfig
      noLookup smtpAlwaysDefer = none := by
  decide

/-- Claim C8 (counterexample): `determine_recipients` uses `Vec::dedup`,
which removes only *consecutive* duplicates, so a `To` header listing
`a@x.test, b@x.test, a@x.test` produces a recipient list containing two
entries with equal addresses. -/
theorem non_adjacent_duplicate_recipients_survive :
    determine_recipients dupEmailHeaders
      = [recipient_from_mailbox mbA, recipient_from_mailbox mbB,
         recipient_from_mailbox mbA] ∧
    ((determine_recipients dupEmailHeaders).map (fun r => r.smtp_email_addr))
      = ["a@x.test", "b@x.test", "a@x.test"] ∧
    ¬ ((determine_recipients dupEmailHeaders).map
        (fun r => r.smtp_email_addr)).Nodup := by
  decide

/-! ### Characterizing the attempts update of `send_email` -/

theorem get_mx_records_for_email_attempts (l : String → List String)
    (ims : InternalMessageStatus) :
    (get_mx_records_for_email l ims).attempts_remaining =
      ims.attempts_remaining := rfl

theorem resolveStage_attempts (c : Config) (l : String → List String)
    (ims : InternalMessageStatus) :
    (resolveStage c l ims).attempts_remaining = ims.attempts_remaining := by
  unfold resolveStage
  split
  · split
    · exact get_mx_records_for_email_attempts l ims
    · rfl
  · rfl

theorem exhaustStage_attempts (ims : InternalMessageStatus) :
    (exhaustStage ims).attempts_remaining = ims.attempts_remaining := by
  unfold exhaustStage
  split <;> rfl

theorem plan_mxdelivery_sessions_attempts (ims : InternalMessageStatus)
    (config : Config) :
    (plan_mxdelivery_sessions ims config).1.attempts_remaining =
      ims.attempts_remaining := by
  unfold plan_mxdelivery_sessions
  split <;> rfl

theorem deliver_to_all_servers_attempts (email : PreparedEmail)
    (ims : InternalMessageStatus) (config : Config) (smtp : SmtpOracle) :
    (deliver_to_all_servers email ims config smtp).1.attempts_remaining =
      ims.attempts_remaining :=
  plan_mxdelivery_sessions_attempts ims config

/-- The four-way normal form of `send_email`: completion zeroes the
counter and schedules nothing; an incomplete pass entered at zero
attempts underflows (`none`); an incomplete pass entered at one zeroes
the counter and schedules nothing; otherwise the counter drops by one
and a retry is scheduled with the exponential-backoff delay. -/
theorem send_email_eq (email : PreparedEmail) (ims : InternalMessageStatus)
    (config : Config) (mxLookup : String → List String) (smtp : SmtpOracle) :
    send_email email ims config mxLookup smtp =
      (if (deliver_to_all_servers email
            (exhaustStage (resolveStage config mxLookup ims)) config smtp).2 then
        some ({ (deliver_to_all_servers email
            (exhaustStage (resolveStage config mxLookup ims)) config smtp).1
              with attempts_remaining := 0 }, none)
       else if ims.attempts_remaining = 0 then none
       else if ims.attempts_remaining = 1 then
         some ({ (deliver_to_all_servers email
            (exhaustStage (resolveStage config mxLookup ims)) config smtp).1
              with attempts_remaining := 0 }, none)
       else
         some ({ (deliver_to_all_servers email
            (exhaustStage (resolveStage config mxLookup ims)) config smtp).1
              with attempts_remaining := ims.attempts_remaining - 1 },
           some (config.base_resend_delay_secs *
             3 ^ (3 - (ims.attempts_remaining - 1))))) := by
  have ha : (deliver_to_all_servers email
      (exhaustStage (resolveStage config mxLookup ims)) config
      smtp).1.attempts_remaining = ims.attempts_remaining := by
    rw [deliver_to_all_servers_attempts, exhaustStage_attempts,
      resolveStage_attempts]
  unfold send_email
  simp only [ha]
  by_cases h2 : (deliver_to_all_servers email
      (exhaustStage (resolveStage config mxLookup ims)) config smtp).2
  · simp [h2]
  · by_cases h0 : ims.attempts_remaining = 0
    · simp [h2, h0]
    · by_cases h1 : ims.attempts_remaining = 1
      · simp [h2, h0, h1]
      · simp only [h2, if_false, Bool.false_eq_true, h0, if_neg h0, h1,
          if_neg h1, if_neg h2]
        rw [if_pos (by omega)]

/-- Claim C3 (amended): every pass that leaves `attempts_remaining > 0`
schedules exactly one `Resend` task, due
`base_resend_delay_secs · 3^(3 − attempts_remaining)` seconds out; for a
fresh message (3 attempts) whose passes keep deferring, the successive
retry delays are therefore 3x and 9x the base delay, and the third
(exhausting) pass schedules no retry at all — there is no 1x delay. -/
theorem retry_backoff_schedule_amended :
    (∀ (email : PreparedEmail) (ims : InternalMessageStatus) (config : Config)
        (mxLookup : String → List String) (smtp : SmtpOracle)
        (ims2 : InternalMessageStatus) (d : Nat),
        send_email email ims config mxLookup smtp = some (ims2, some d) →
        0 < ims2.attempts_remaining ∧
          d = config.base_resend_delay_secs *
            3 ^ (3 - ims2.attempts_remaining)) ∧
    send_email scenarioEmail scenarioStatus scenarioRelayConfig noLookup
        smtpAlwaysDefer = some (scenarioStatus1, some (3 * 60)) ∧
    send_email scenarioEmail scenarioStatus1 scenarioRelayConfig noLookup
        smtpAlwaysDefer = some (scenarioStatus2, some (9 * 60)) ∧
    send_email scenarioEmail scenarioStatus2 scenarioRelayConfig noLookup
        smtpAlwaysDefer = some (scenarioStatus3, none) := by
  refine ⟨?_, by decide, by decide, by decide⟩
  intro email ims config mxLookup smtp ims2 d h
  rw [send_email_eq] at h
  by_cases h2 : (deliver_to_all_servers email
      (exhaustStage (resolveStage config mxLookup ims)) config smtp).2
  · rw [if_pos h2] at h
    simp at h
  · rw [if_neg h2] at h
    by_cases h0 : ims.attempts_remaining = 0
    · rw [if_pos h0] at h
      simp at h
    · rw [if_neg h0] at h
      by_cases h1 : ims.attempts_remaining = 1
      · rw [if_pos h1] at h
        simp at h
      · rw [if_neg h1] at h
        simp only [Option.some.injEq, Prod.mk.injEq] at h
        obtain ⟨rfl, rfl⟩ := h
        refine ⟨?_, rfl⟩
        show 0 < ims.attempts_remaining - 1
        omega

/-- Witness for `retry_backoff_schedule_amended` at the concrete first
deferring pass. -/
theorem retry_backoff_schedule_amended_witness :
    0 < scenarioStatus1.attempts_remaining ∧
    180 = scenarioRelayConfig.base_resend_delay_secs *
      3 ^ (3 - scenarioStatus1.attempts_remaining) :=
  retry_backoff_schedule_amended.1 scenarioEmail scenarioStatus
    scenarioRelayConfig noLookup smtpAlwaysDefer scenarioStatus1 180
    (by decide)

/-- Claim C6 (amended): in every pass, if delivery is complete the
counter is set to 0; otherwise it is decremented by exactly one — but
the decrement is the unchecked `u8` subtraction `attempts_remaining -= 1`,
which underflows (rather than saturating) exactly when the pass was
entered with `attempts_remaining == 0` and delivery still deferred some
recipient. -/
theorem attempts_update_amended :
    ∀ (email : PreparedEmail) (ims : InternalMessageStatus) (config : Config)
      (mxLookup : String → List String) (smtp : SmtpOracle),
      (send_email email ims config mxLookup smtp = none ↔
        ((deliver_to_all_servers email
            (exhaustStage (resolveStage config mxLookup ims)) config
            smtp).2 = false ∧
          ims.attempts_remaining = 0)) ∧
      (∀ (ims2 : InternalMessageStatus) (d : Option Nat),
        send_email email ims config mxLookup smtp = some (ims2, d) →
        ims2.attempts_remaining =
          if (deliver_to_all_servers email
              (exhaustStage (resolveStage config mxLookup ims)) config
              smtp).2
          then 0 else ims.attempts_remaining - 1) := by
  intro email ims config mxLookup smtp
  rw [send_email_eq]
  cases hb : (deliver_to_all_servers email
      (exhaustStage (resolveStage config mxLookup ims)) config smtp).2
  · by_cases h0 : ims.attempts_remaining = 0
    · refine ⟨by simp [h0], ?_⟩
      intro ims2 d h
      simp [h0] at h
    · by_cases h1 : ims.attempts_remaining = 1
      · refine ⟨by simp [h0, h1], ?_⟩
        intro ims2 d h
        simp only [Bool.false_eq_true, if_false, if_neg h0, if_pos h1,
          Option.some.injEq, Prod.mk.injEq] at h
        obtain ⟨rfl, rfl⟩ := h
        simp only [Bool.false_eq_true, if_false]
        show (0 : Nat) = ims.attempts_remaining - 1
        omega
      · refine ⟨by simp [h0, h1], ?_⟩
        intro ims2 d h
        simp only [Bool.false_eq_true, if_false, if_neg h0, if_neg h1,
          Option.some.injEq, Prod.mk.injEq] at h
        obtain ⟨rfl, rfl⟩ := h
        simp only [Bool.false_eq_true, if_false]
  · refine ⟨by simp, ?_⟩
    intro ims2 d h
    simp only [if_pos trivial, Option.some.injEq, Prod.mk.injEq] at h
    obtain ⟨rfl, rfl⟩ := h
    simp

/-- Witness for `attempts_update_amended` at the concrete first
deferring pass. -/
theorem attempts_update_amended_witness :
    scenarioStatus1.attempts_remaining =
      if (deliver_to_all_servers scenarioEmail
          (exhaustStage (resolveStage scenarioRelayConfig noLookup
            scenarioStatus)) scenarioRelayConfig smtpAlwaysDefer).2
      then 0 else scenarioStatus.attempts_remaining - 1 :=
  (attempts_update_amended scenarioEmail scenarioStatus scenarioRelayConfig
      noLookup smtpAlwaysDefer).2 scenarioStatus1 (some 180) (by decide)

/-! ### The task set holds at most one task per due time -/

theorem mem_insertTask (t x : Task) :
    ∀ l : List Task, x ∈ insertTask l t → x ∈ l ∨ x = t := by
  intro l
  induction l with
  | nil =>
    intro h
    simp [insertTask] at h
    exact Or.inr h
  | cons a as ih =>
    intro h
    simp only [insertTask] at h
    cases hc : compare t.time a.time <;> rw [hc] at h <;>
      simp only [List.mem_cons] at h ⊢
    · tauto
    · tauto
    · rcases h with h | h
      · tauto
      · rcases ih h with h' | h' <;> tauto

theorem insertTask_pairwise (t : Task) :
    ∀ l : List Task, List.Pairwise (fun a b => a.time < b.time) l →
      List.Pairwise (fun a b => a.time < b.time) (insertTask l t) := by
  intro l
  induction l with
  | nil =>
    intro _
    simp [insertTask]
  | cons a as ih =>
    intro hp
    rcases List.pairwise_cons.1 hp with ⟨ha, has⟩
    simp only [insertTask]
    cases hc : compare t.time a.time
    · have hlt := Nat.compare_eq_lt.1 hc
      refine List.pairwise_cons.2 ⟨?_, hp⟩
      intro b hb
      rcases List.mem_cons.1 hb with rfl | hb'
      · exact hlt
      · exact Nat.lt_trans hlt (ha b hb')
    · exact hp
    · have hgt := Nat.compare_eq_gt.1 hc
      refine List.pairwise_cons.2 ⟨?_, ih has⟩
      intro b hb
      rcases mem_insertTask t b as hb with hb' | rfl
      · exact ha b hb'
      · exact hgt

theorem insertTask_of_mem_time (t : Task) :
    ∀ l : List Task, List.Pairwise (fun a b => a.time < b.time) l →
      (∃ x ∈ l, x.time = t.time) → insertTask l t = l := by
  intro l
  induction l with
  | nil =>
    intro _ h
    simp at h
  | cons a as ih =>
    intro hp h
    rcases List.pairwise_cons.1 hp with ⟨ha, has⟩
    rcases h with ⟨x, hx, hxt⟩
    simp only [insertTask]
    cases hc : compare t.time a.time
    · exfalso
      have hlt := Nat.compare_eq_lt.1 hc
      rcases List.mem_cons.1 hx with rfl | hx'
      · omega
      · have := ha x hx'
        omega
    · rfl
    · have hgt := Nat.compare_eq_gt.1 hc
      rcases List.mem_cons.1 hx with rfl | hx'
      · omega
      · rw [ih has ⟨x, hx', hxt⟩]

theorem insertTask_mem_iff (t : Task) :
    ∀ l : List Task, (∀ x ∈ l, x.time ≠ t.time) →
      ∀ y, y ∈ insertTask l t ↔ y ∈ l ∨ y = t := by
  intro l
  induction l with
  | nil =>
    intro _ y
    simp [insertTask]
  | cons a as ih =>
    intro h y
    simp only [insertTask]
    cases hc : compare t.time a.time
    · simp only [List.mem_cons]
      tauto
    · exact absurd (Nat.compare_eq_eq.1 hc).symm (h a (List.mem_cons_self a as))
    · have := ih (fun x hx => h x (List.mem_cons_of_mem a hx)) y
      simp only [List.mem_cons, this]
      tauto

theorem removeTask_eq_eraseP (t : Task) :
    ∀ l : List Task, removeTask l t = l.eraseP (fun x => t.time == x.time) := by
  intro l
  induction l with
  | nil => rfl
  | cons a as ih =>
    simp only [removeTask, List.eraseP_cons]
    by_cases h : t.time = a.time
    · simp [h, ih]
    · have hb : (t.time == a.time) = false := by
        simp [h]
      simp [h, hb, ih]

/-- Claim C5 (amended): the task collection keeps tasks strictly ordered
by due time, but task identity — both for membership on insert and for
removal — is equality of the `time` field *alone* (the `Ord` and
`PartialEq` impls of `Task` compare only `time`): inserting a task whose
due time already occurs is a no-op, a task with a fresh due time is
added, and removal deletes the first task with the given due time
irrespective of its `tasktype` and `message_id`. -/
theorem task_queue_identity_amended :
    ∀ (l : List Task) (t : Task),
      List.Pairwise (fun a b => a.time < b.time) l →
      List.Pairwise (fun a b => a.time < b.time) (insertTask l t) ∧
      ((∃ x ∈ l, x.time = t.time) → insertTask l t = l) ∧
      ((∀ x ∈ l, x.time ≠ t.time) →
        ∀ y, y ∈ insertTask l t ↔ y ∈ l ∨ y = t) ∧
      removeTask l t = l.eraseP (fun x => t.time == x.time) :=
  fun l t hp =>
    ⟨insertTask_pairwise t l hp,
     insertTask_of_mem_time t l hp,
     fun h => insertTask_mem_iff t l h,
     removeTask_eq_eraseP t l⟩

/-- A task due later than `taskA`/`taskB`. -/
def taskC : Task := { tasktype := .Resend, time := 9, message_id := "msg-c" }

/-- Witness for `task_queue_identity_amended` on a concrete queue. -/
theorem task_queue_identity_amended_witness :
    List.Pairwise (fun a b : Task => a.time < b.time)
      (insertTask [taskA] taskC) ∧
    insertTask [taskA] taskA = [taskA] :=
  ⟨(task_queue_identity_amended [taskA] taskC (by decide)).1,
   (task_queue_identity_amended [taskA] taskA (by decide)).2.1
     ⟨taskA, List.mem_singleton_self taskA, rfl⟩⟩

/-! ### A pass over an already-completed message is a no-op -/

theorem failExhausted_of_completed {r : InternalRecipientStatus}
    (h : r.result.completed = true) : failExhausted r = r := by
  unfold failExhausted
  cases hr : r.result <;> simp_all [DeliveryResult.completed]

theorem exhaustStage_of_all_completed {ims : InternalMessageStatus}
    (h : ∀ r ∈ ims.recipients, r.result.completed = true) :
    exhaustStage ims = ims := by
  unfold exhaustStage
  split
  · have hmap : ims.recipients.map failExhausted = ims.recipients := by
      calc ims.recipients.map failExhausted
          = ims.recipients.map id :=
            List.map_congr_left fun r hr => failExhausted_of_completed (h r hr)
        _ = ims.recipients := List.map_id _
    rw [hmap]
  · rfl

theorem resolveStage_all_completed {config : Config}
    {mxLookup : String → List String} {ims : InternalMessageStatus}
    (h : ∀ r ∈ ims.recipients, r.result.completed = true) :
    ∀ r ∈ (resolveStage config mxLookup ims).recipients,
      r.result.completed = true := by
  unfold resolveStage
  split
  · split
    · intro r hr
      simp only [get_mx_records_for_email] at hr
      rcases List.mem_map.1 hr with ⟨r0, hr0, rfl⟩
      by_cases he : (mxLookup r0.domain).isEmpty <;>
        simp only [he, if_true, if_false, Bool.false_eq_true, if_neg]
      · simp [DeliveryResult.completed]
      · exact h r0 hr0
    · exact h
  · exact h

theorem planRecipient_of_completed {recip : InternalRecipientStatus}
    (ds : List MxDelivery) (i : Nat) (h : recip.result.completed = true) :
    planRecipient recip ds i = (recip, ds) := by
  unfold planRecipient
  cases hr : recip.result <;> rw [hr] at h <;>
    simp_all [DeliveryResult.completed]

theorem planRemoteLoop_of_all_completed :
    ∀ (recips : List InternalRecipientStatus) (i : Nat)
      (ds : List MxDelivery),
      (∀ r ∈ recips, r.result.completed = true) →
      planRemoteLoop recips i ds = (recips, ds) := by
  intro recips
  induction recips with
  | nil => intro i ds _; rfl
  | cons a as ih =>
    intro i ds h
    have h1 := planRecipient_of_completed ds i (h a (List.mem_cons_self a as))
    have h2 := ih (i + 1) ds fun r hr => h r (List.mem_cons_of_mem a hr)
    simp [planRemoteLoop, h1, h2]

theorem rebuildTo_of_all_completed
    {recips : List InternalRecipientStatus}
    (h : ∀ r ∈ recips, r.result.completed = true) :
    ∀ idxs : List Nat, (∀ i ∈ idxs, i < recips.length) →
      rebuildTo recips idxs = [] := by
  intro idxs
  induction idxs with
  | nil => intro _; rfl
  | cons i is ih =>
    intro hidx
    have hi : i < recips.length := hidx i (List.mem_cons_self i is)
    have hc : (recips.getD i default).result.completed = true := by
      rw [List.getD_eq_getElem recips default hi]
      exact h _ (List.getElem_mem hi)
    unfold rebuildTo at ih ⊢
    rw [List.filterMap_cons]
    simp only [hc, if_true]
    exact ih fun j hj => hidx j (List.mem_cons_of_mem i hj)

theorem deliver_to_one_server_skip (email : PreparedEmail)
    (recips : List InternalRecipientStatus) (config : Config)
    (mxd : MxDelivery) (smtp : SmtpOracle)
    (h : rebuildTo recips mxd.recipients = []) :
    deliver_to_one_server email recips config mxd smtp = (recips, true) := by
  unfold deliver_to_one_server
  rw [h]
  rfl

theorem deliver_to_all_servers_of_all_completed
    (email : PreparedEmail) (ims : InternalMessageStatus) (config : Config)
    (smtp : SmtpOracle)
    (h : ∀ r ∈ ims.recipients, r.result.completed = true) :
    deliver_to_all_servers email ims config smtp = (ims, true) := by
  unfold deliver_to_all_servers plan_mxdelivery_sessions
  cases hc : config.delivery with
  | Relay rc =>
    have hr : rebuildTo ims.recipients (List.range ims.recipients.length) = [] :=
      rebuildTo_of_all_completed h _ fun i hi => List.mem_range.1 hi
    simp only [deliverLoop, deliver_to_one_server_skip email ims.recipients
      config ⟨rc.domain_name, List.range ims.recipients.length⟩ smtp hr]
    rfl
  | Remote =>
    rw [planRemoteLoop_of_all_completed ims.recipients 0 [] h]
    simp only [deliverLoop]

/-- Claim C10: a `send_email` pass over a message whose recipients are
all already completed opens no SMTP session — under direct delivery the
plan is empty, under relay the single step's rebuilt `to` list is empty
and the step is skipped, and the pass result does not depend on the SMTP
oracle at all — the pass counts as complete, sets
`attempts_remaining := 0`, and schedules no retry task. -/
theorem completed_message_pass_is_noop :
    ∀ (email : PreparedEmail) (ims : InternalMessageStatus) (config : Config)
      (mxLookup : String → List String) (smtp smtp' : SmtpOracle),
      (∀ r ∈ ims.recipients, r.result.completed = true) →
      (deliver_to_all_servers email
          (exhaustStage (resolveStage config mxLookup ims)) config
          smtp).2 = true ∧
      send_email email ims config mxLookup smtp =
        some ({ resolveStage config mxLookup ims with
                  attempts_remaining := 0 }, none) ∧
      send_email email ims config mxLookup smtp =
        send_email email ims config mxLookup smtp' ∧
      (∀ step ∈ (plan_mxdelivery_sessions
          (exhaustStage (resolveStage config mxLookup ims)) config).2,
        rebuildTo (plan_mxdelivery_sessions
            (exhaustStage (resolveStage config mxLookup ims)) config).1.recipients
          step.recipients = []) := by
  intro email ims config mxLookup smtp smtp' h
  have h1 : ∀ r ∈ (resolveStage config mxLookup ims).recipients,
      r.result.completed = true := resolveStage_all_completed h
  have hex : exhaustStage (resolveStage config mxLookup ims) =
      resolveStage config mxLookup ims := exhaustStage_of_all_completed h1
  have hdel : ∀ s : SmtpOracle,
      deliver_to_all_servers email
        (exhaustStage (resolveStage config mxLookup ims)) config s =
        (resolveStage config mxLookup ims, true) := by
    intro s
    rw [hex]
    exact deliver_to_all_servers_of_all_completed email _ config s h1
  have hsend : ∀ s : SmtpOracle,
      send_email email ims config mxLookup s =
        some ({ resolveStage config mxLookup ims with
                  attempts_remaining := 0 }, none) := by
    intro s
    rw [send_email_eq]
    rw [hdel s]
    rfl
  refine ⟨by rw [hdel smtp], hsend smtp, by rw [hsend smtp, hsend smtp'], ?_⟩
  rw [hex]
  unfold plan_mxdelivery_sessions
  cases hc : config.delivery with
  | Relay rc =>
    intro step hstep
    simp only [List.mem_singleton] at hstep
    subst hstep
    exact rebuildTo_of_all_completed h1 _ fun i hi => List.mem_range.1 hi
  | Remote =>
    rw [planRemoteLoop_of_all_completed _ 0 [] h1]
    intro step hstep
    simp at hstep

/-- A message whose single recipient has already been delivered. -/
def completedStatus : InternalMessageStatus :=
  { message_id := "mid-4",
    recipients := [{ scenarioRecipient with result := .Delivered "250 done" }],
    attempts_remaining := 2 }

/-- Witness for `completed_message_pass_is_noop` on a concrete
already-delivered message under the relay configuration. -/
theorem completed_message_pass_is_noop_witness :
    send_email scenarioEmail completedStatus scenarioRelayConfig noLookup
        smtpAlwaysDefer =
      some ({ resolveStage scenarioRelayConfig noLookup completedStatus with
                attempts_remaining := 0 }, none) :=
  (completed_message_pass_is_noop scenarioEmail completedStatus
    scenarioRelayConfig noLookup smtpAlwaysDefer smtpSplit (by decide)).2.1

/-! ### SMTP outcome classification matches the claimed table -/

/-- The four variants of `DeliveryResult`, used to compare the code's
classification with the claimed one irrespective of message strings. -/
inductive ResultClass where
  | queued
  | deferred
  | delivered
  | failed
deriving DecidableEq, Repr

/-- The variant of a `DeliveryResult`. -/
def resultClass : DeliveryResult → ResultClass
  | .Queued => .queued
  | .Deferred _ _ => .deferred
  | .Delivered _ => .delivered
  | .Failed _ => .failed

/-- The eleven I/O error kinds the claim lists as deferred. -/
def claimDeferredIoKinds : List IoErrorKind :=
  [.ConnectionRefused, .ConnectionReset, .ConnectionAborted, .AddrInUse,
   .BrokenPipe, .TimedOut, .Interrupted, .HostUnreachable,
   .NetworkUnreachable, .NetworkDown, .ResourceBusy]

/-- Transcription of claim C7's classification table (spec §4.3):
`Delivered` exactly for positive completion/intermediate replies;
`Deferred` exactly for transient 4xx replies, transient library errors,
DNS resolution failure, and the eleven listed I/O error kinds; `Failed`
for every other outcome. -/
def smtpSpecClass : SmtpSendResult → ResultClass
  | .ok severity _ =>
    match severity with
    | .PositiveCompletion => .delivered
    | .PositiveIntermediate => .delivered
    | .TransientNegativeCompletion => .deferred
    | .PermanentNegativeCompletion => .failed
  | .errTransient _ => .deferred
  | .errResolution => .deferred
  | .errIo kind _ =>
    if claimDeferredIoKinds.contains kind then .deferred else .failed
  | _ => .failed

/-- The debug rendering of an I/O error determines its kind for the four
kinds that the code detects by substring search: the rendering contains
`"kind: K"` exactly when the error's kind is `K`.  This holds for the
`Os \x7b code: …, kind: K, message: … \x7d` and
`Custom \x7b kind: K, error: … \x7d` renderings that `std::io::Error`
produces for network errors of these kinds. -/
def ioDebugFaithful : SmtpSendResult → Prop
  | .errIo kind debugRep =>
    (strContains debugRep "kind: HostUnreachable" = true ↔
      kind = .HostUnreachable) ∧
    (strContains debugRep "kind: NetworkUnreachable" = true ↔
      kind = .NetworkUnreachable) ∧
    (strContains debugRep "kind: NetworkDown" = true ↔
      kind = .NetworkDown) ∧
    (strContains debugRep "kind: ResourceBusy" = true ↔
      kind = .ResourceBusy)
  | _ => True

/-- Claim C7: for every outcome of `mailer.send` whose I/O debug
rendering is faithful to its kind, the classification performed by
`smtp_delivery` (lines 128–222 of `src/worker/smtp.rs`) assigns exactly
the variant required by the claim's table. -/
theorem smtp_outcome_classification :
    ∀ r : SmtpSendResult, ioDebugFaithful r →
      resultClass (smtp_delivery_classification r) = smtpSpecClass r := by
  intro r h
  cases r with
  | ok severity responseDebug => cases severity <;> rfl
  | errTransient responseDebug => rfl
  | errPermanent responseDebug => rfl
  | errResolution => rfl
  | errResponseParsing s => rfl
  | errChallengeParsing debugRep => rfl
  | errUtf8Parsing debugRep => rfl
  | errClient s => rfl
  | errTls debugRep => rfl
  | errParsing debugRep => rfl
  | errIo kind debugRep =>
    obtain ⟨h1, h2, h3, h4⟩ := h
    cases kind <;>
      simp_all [smtp_delivery_classification, classifyIoError,
        stableDeferredIoKinds, claimDeferredIoKinds, resultClass,
        smtpSpecClass]

/-- A host-unreachable I/O error with its OS debug rendering. -/
def ioHostUnreachableOutcome : SmtpSendResult :=
  .errIo .HostUnreachable
    "Os \x7b code: 113, kind: HostUnreachable, message: No route to host \x7d"

/-- Witness for `smtp_outcome_classification` at a concrete OS-level
host-unreachable error. -/
theorem smtp_outcome_classification_witness :
    resultClass (smtp_delivery_classification ioHostUnreachableOutcome) =
      smtpSpecClass ioHostUnreachableOutcome :=
  smtp_outcome_classification ioHostUnreachableOutcome
    (by refine ⟨by decide, by decide, by decide, by decide⟩)

/-! ### Recipient collection -/

theorem foldl_append_eq_flatMap (f : α → List β) :
    ∀ (l : List α) (acc : List β),
      l.foldl (fun r a => r ++ f a) acc = acc ++ l.flatMap f := by
  intro l
  induction l with
  | nil => intro acc; simp
  | cons a as ih =>
    intro acc
    simp only [List.foldl_cons, List.flatMap_cons, ih, List.append_assoc]

/-- Claim C8 (amended): `determine_recipients` collects the `To`, `Cc`,
and `Bcc` addresses in that order, removes only *consecutive*
structurally-equal `Address` entries (`Vec::dedup`, applied before group
expansion), and then flattens each address — a mailbox to itself, a
group to its mailbox list, a group with an absent or comments-only group
list to nothing.  Non-adjacent duplicate addresses are not removed, so
the recipient list may contain entries with equal addresses. -/
theorem determine_recipients_amended :
    (∀ email : EmailHeaders,
      determine_recipients email =
        (dedupConsecutive (collectAddresses email)).flatMap expandAddress) ∧
    (∀ (a : AddressData) (l : List AddressData),
      dedupConsecutive (a :: a :: l) = dedupConsecutive (a :: l)) := by
  constructor
  · intro email
    unfold determine_recipients
    rw [foldl_append_eq_flatMap expandAddress _ []]
    rfl
  · intro a l
    simp [dedupConsecutive, dedupAfter]

/-! ### Reference storage: completed messages are returned at most once -/

/-- The pointwise effect of `retrieve_all_recent` on a stored record:
flip `retrieved` on a not-yet-retrieved completed record. -/
def recUpdate (kr : String × StorageRecord) : String × StorageRecord :=
  if kr.2.status.attempts_remaining = 0 ∧ kr.2.retrieved = false then
    (kr.1, { kr.2 with retrieved := true })
  else kr

/-- The pointwise output of `retrieve_all_recent` for a stored record:
everything except already-retrieved completed records. -/
def recEmit (kr : String × StorageRecord) : Option InternalMessageStatus :=
  if kr.2.status.attempts_remaining = 0 ∧ kr.2.retrieved = true then none
  else some kr.2.status

theorem retrieve_all_recent_eq : ∀ st : MemoryStorage,
    retrieve_all_recent st = (st.map recUpdate, st.filterMap recEmit) := by
  intro st
  induction st with
  | nil => rfl
  | cons kr rest ih =>
    obtain ⟨k, r⟩ := kr
    simp only [retrieve_all_recent, ih, List.map_cons, List.filterMap_cons,
      recUpdate, recEmit]
    by_cases h0 : r.status.attempts_remaining = 0
    · by_cases hr : r.retrieved <;> simp [h0, hr]
    · simp [h0]

/-- Message `m` can no longer be emitted as completed: every record
filed under `m` has its `retrieved` flag set. -/
def mBlocked (m : String) (st : MemoryStorage) : Prop :=
  ∀ r : StorageRecord, (m, r) ∈ st → r.retrieved = true

theorem mBlocked_update {m : String} {st : MemoryStorage}
    {ims : InternalMessageStatus} (h : mBlocked m st) :
    mBlocked m (update_status st ims) := by
  intro r hr
  unfold update_status at hr
  rcases List.mem_map.1 hr with ⟨⟨k0, r0⟩, h0, heq⟩
  by_cases hk : k0 = ims.message_id
  · rw [if_pos hk] at heq
    injection heq with hk2 hr2
    subst hk2
    subst hr2
    exact h r0 h0
  · rw [if_neg hk] at heq
    injection heq with hk2 hr2
    subst hk2
    subst hr2
    exact h r0 h0

theorem mBlocked_recUpdate {m : String} {st : MemoryStorage}
    (h : mBlocked m st) : mBlocked m (st.map recUpdate) := by
  intro r hr
  rcases List.mem_map.1 hr with ⟨⟨k0, r0⟩, h0, heq⟩
  unfold recUpdate at heq
  by_cases hc : r0.status.attempts_remaining = 0 ∧ r0.retrieved = false
  · rw [if_pos hc] at heq
    injection heq with hk2 hr2
    subst hk2
    subst hr2
    rfl
  · rw [if_neg hc] at heq
    injection heq with hk2 hr2
    subst hk2
    subst hr2
    exact h r0 h0

theorem storageWF_update {st : MemoryStorage} {ims : InternalMessageStatus}
    (h : storageWF st) : storageWF (update_status st ims) := by
  obtain ⟨hid, hnd⟩ := h
  constructor
  · intro kr hkr
    rcases List.mem_map.1 hkr with ⟨⟨k0, r0⟩, h0, heq⟩
    by_cases hk : k0 = ims.message_id
    · rw [if_pos hk] at heq
      rw [← heq]
      exact hk.symm
    · rw [if_neg hk] at heq
      rw [← heq]
      exact hid (k0, r0) h0
  · have hkeys : (update_status st ims).map Prod.fst = st.map Prod.fst := by
      unfold update_status
      rw [List.map_map]
      apply List.map_congr_left
      intro kr _
      by_cases hk : kr.1 = ims.message_id <;> simp [hk]
    rw [hkeys]
    exact hnd

theorem storageWF_recUpdate {st : MemoryStorage} (h : storageWF st) :
    storageWF (st.map recUpdate) := by
  obtain ⟨hid, hnd⟩ := h
  constructor
  · intro kr hkr
    rcases List.mem_map.1 hkr with ⟨⟨k0, r0⟩, h0, heq⟩
    unfold recUpdate at heq
    by_cases hc : r0.status.attempts_remaining = 0 ∧ r0.retrieved = false
    · rw [if_pos hc] at heq
      rw [← heq]
      exact hid (k0, r0) h0
    · rw [if_neg hc] at heq
      rw [← heq]
      exact hid (k0, r0) h0
  · have hkeys : (st.map recUpdate).map Prod.fst = st.map Prod.fst := by
      rw [List.map_map]
      apply List.map_congr_left
      intro kr _
      simp only [Function.comp_apply]
      unfold recUpdate
      split <;> rfl
    rw [hkeys]
    exact hnd

theorem keys_nodup_unique :
    ∀ {st : MemoryStorage}, (st.map Prod.fst).Nodup →
      ∀ {m : String} {a b : StorageRecord},
        (m, a) ∈ st → (m, b) ∈ st → a = b := by
  intro st
  induction st with
  | nil =>
    intro _ _ _ _ ha
    cases ha
  | cons kr rest ih =>
    obtain ⟨k0, r0⟩ := kr
    intro hnd m a b ha hb
    simp only [List.map_cons, List.nodup_cons] at hnd
    obtain ⟨hk, hnd'⟩ := hnd
    rcases List.mem_cons.1 ha with h1 | h1 <;> rcases List.mem_cons.1 hb with h2 | h2
    · injection h1 with hm1 ha1
      injection h2 with hm2 hb1
      rw [ha1, hb1]
    · exfalso
      injection h1 with hm1 ha1
      subst hm1
      exact hk (List.mem_map.2 ⟨(m, b), h2, rfl⟩)
    · exfalso
      injection h2 with hm2 hb1
      subst hm2
      exact hk (List.mem_map.2 ⟨(m, a), h1, rfl⟩)
    · exact ih hnd' h1 h2

theorem emit_record {st : MemoryStorage} {m : String} (hwf : storageWF st)
    (h : outputHasCompleted m (st.filterMap recEmit) = true) :
    ∃ r : StorageRecord, (m, r) ∈ st ∧
      r.status.attempts_remaining = 0 ∧ r.retrieved = false := by
  unfold outputHasCompleted at h
  rw [List.any_eq_true] at h
  obtain ⟨s, hs, hp⟩ := h
  simp only [Bool.and_eq_true, decide_eq_true_eq] at hp
  obtain ⟨hm, h0⟩ := hp
  rcases List.mem_filterMap.1 hs with ⟨⟨k0, r0⟩, h0', hemit⟩
  unfold recEmit at hemit
  by_cases hc : r0.status.attempts_remaining = 0 ∧ r0.retrieved = true
  · rw [if_pos hc] at hemit
    cases hemit
  · rw [if_neg hc] at hemit
    have hse : r0.status = s := by
      injection hemit
    have hk : k0 = m := by
      rw [← hm, ← hse]
      exact (hwf.1 (k0, r0) h0').symm
    subst hk
    have ha : r0.status.attempts_remaining = 0 := by rw [hse]; exact h0
    refine ⟨r0, h0', ha, ?_⟩
    cases hret : r0.retrieved
    · rfl
    · exact absurd ⟨ha, hret⟩ hc

theorem no_emit_of_blocked {st : MemoryStorage} {m : String}
    (hwf : storageWF st) (hb : mBlocked m st) :
    outputHasCompleted m (st.filterMap recEmit) = false := by
  cases he : outputHasCompleted m (st.filterMap recEmit)
  · rfl
  · obtain ⟨r, hr, h0, hf⟩ := emit_record hwf he
    rw [hb r hr] at hf
    cases hf

theorem blocked_after_emit {st : MemoryStorage} {m : String}
    (hwf : storageWF st)
    (h : outputHasCompleted m (st.filterMap recEmit) = true) :
    mBlocked m (st.map recUpdate) := by
  obtain ⟨r, hr, h0, hf⟩ := emit_record hwf h
  intro r' hr'
  rcases List.mem_map.1 hr' with ⟨⟨k0, r0⟩, h0', heq⟩
  have hk : k0 = m := by
    have hfst : (recUpdate (k0, r0)).1 = k0 := by
      unfold recUpdate
      split <;> rfl
    rw [heq] at hfst
    exact hfst.symm
  subst hk
  have hr0 : r0 = r := keys_nodup_unique hwf.2 h0' hr
  subst hr0
  unfold recUpdate at heq
  rw [if_pos ⟨h0, hf⟩] at heq
  injection heq with hk2 hr2
  rw [← hr2]

theorem mem_recent_of_incomplete :
    ∀ (st : MemoryStorage) (k : String) (r : StorageRecord),
      (k, r) ∈ st → r.status.attempts_remaining ≠ 0 →
      r.status ∈ (retrieve_all_recent st).2 := by
  intro st k r hm h0
  rw [retrieve_all_recent_eq]
  apply List.mem_filterMap.2
  refine ⟨(k, r), hm, ?_⟩
  unfold recEmit
  rw [if_neg fun hc => h0 hc.1]

theorem countP_completed_le_one :
    ∀ (ops : List StorageOp) (st : MemoryStorage) (m : String),
      storageWF st →
      ((runOps st ops).2.countP (fun out => outputHasCompleted m out)) ≤ 1 ∧
      (mBlocked m st →
        ((runOps st ops).2.countP (fun out => outputHasCompleted m out)) = 0) := by
  intro ops
  induction ops with
  | nil =>
    intro st m _
    exact ⟨by simp [runOps], fun _ => by simp [runOps]⟩
  | cons op ops ih =>
    intro st m hwf
    cases op with
    | update ims =>
      have h' := ih (update_status st ims) m (storageWF_update hwf)
      simp only [runOps]
      exact ⟨h'.1, fun hb => h'.2 (mBlocked_update hb)⟩
    | recent =>
      have hwf' : storageWF (st.map recUpdate) := storageWF_recUpdate hwf
      have ih' := ih (st.map recUpdate) m hwf'
      simp only [runOps, retrieve_all_recent_eq st, List.countP_cons]
      constructor
      · cases he : outputHasCompleted m (st.filterMap recEmit)
        · simp only [he, if_false, Nat.add_zero, Bool.false_eq_true]
          exact ih'.1
        · have hb' := blocked_after_emit hwf he
          have hz := ih'.2 hb'
          simp [he, hz]
      · intro hb
        have he := no_emit_of_blocked hwf hb
        have hz := ih'.2 (mBlocked_recUpdate hb)
        simp [he, hz]

/-- Claim C9: every `retrieve_all_recent` call returns every stored
message with `attempts_remaining > 0`; and across any sequence of
`retrieve_all_recent` and `update_status` operations (no `store` of the
message id), a message is reported with `attempts_remaining == 0` by at
most one call — once a completed message has appeared, its `retrieved`
flag blocks every later appearance. -/
theorem retrieve_all_recent_at_most_once :
    (∀ (st : MemoryStorage) (k : String) (r : StorageRecord),
        (k, r) ∈ st → r.status.attempts_remaining ≠ 0 →
        r.status ∈ (retrieve_all_recent st).2) ∧
    (∀ (st : MemoryStorage) (ops : List StorageOp) (m : String),
        storageWF st →
        ((runOps st ops).2.countP
          (fun out => outputHasCompleted m out)) ≤ 1) :=
  ⟨mem_recent_of_incomplete,
   fun st ops m hwf => (countP_completed_le_one ops st m hwf).1⟩

/-- The status of the completed stored message `m1`. -/
def witnessStatusM1 : InternalMessageStatus :=
  { message_id := "m1", recipients := [], attempts_remaining := 0 }

/-- The status of the incomplete stored message `m2`. -/
def witnessStatusM2 : InternalMessageStatus :=
  { message_id := "m2", recipients := [], attempts_remaining := 2 }

/-- A store holding one completed and one incomplete message. -/
def witnessStorage : MemoryStorage :=
  [("m1", { status := witnessStatusM1, retrieved := false }),
   ("m2", { status := witnessStatusM2, retrieved := false })]

/-- Witness for `retrieve_all_recent_at_most_once` on a concrete store
and a concrete sequence of three `retrieve_all_recent` calls. -/
theorem retrieve_all_recent_at_most_once_witness :
    witnessStatusM2 ∈ (retrieve_all_recent witnessStorage).2 ∧
    ((runOps witnessStorage [.recent, .recent, .recent]).2.countP
      (fun out => outputHasCompleted "m1" out)) ≤ 1 :=
  ⟨retrieve_all_recent_at_most_once.1 witnessStorage "m2"
      { status := witnessStatusM2, retrieved := false }
      (by decide) (by decide),
   retrieve_all_recent_at_most_once.2 witnessStorage
      [.recent, .recent, .recent] "m1"
      (by refine ⟨?_, ?_⟩ <;> decide)⟩

end Mailstrom
